import Mathlib

/-!
Verification development for a log de-duplication and aggregation tool.

The tool tails append-only log files, suppresses repeated identical
messages inside a sliding time window, and periodically emits one
aggregated line per suppressed message.  We embed the relevant parts of
the Python source shallowly:

* strings are `List Char`, Python `datetime` values are `Int` instants,
  `timedelta` windows are `Int` durations;
* Python dicts (which preserve insertion order) are association lists
  with `aget` / `aset` / `aerase` / `asetdefault`;
* fallible code (uncaught Python exceptions) returns `Except PyExc`;
* the external `dateutil.parser.parse` is an abstract oracle of type
  `List Char → Option Int`, and `strftime` rendering of a datetime is
  the abstract `fmtTime`;
* lock acquisition / release and every cache mutation and Sink write are
  recorded as an event trace, so that statements about what happens
  inside a critical section can be made.
-/

namespace GLT

abbrev Chars := List Char

abbrev FPath := List Char

abbrev Msg := List Char

/-- Python `str.strip` on both ends. -/
def trimL (s : Chars) : Chars :=
  ((s.dropWhile Char.isWhitespace).reverse.dropWhile Char.isWhitespace).reverse

/-- The timestamp slot of a parsed entry: a successfully parsed datetime
(`dt`), or the raw bracketed text kept as a fallback (`raw`),
mirroring the two possible non-`None` values in `parse_log_entry`. -/
inductive PyTime
  | dt (t : Int)
  | raw (s : Chars)
deriving DecidableEq, Repr

/-- Uncaught Python exceptions that the embedded code can raise. -/
inductive PyExc
  | keyError
  | attributeError
deriving DecidableEq, Repr

/-- A cache record, the dict literal from `files.py`:
`{"count": ..., "first_seen": ...}`.  `first_seen` is `Option` so the
malformed state handled defensively by `prune_once` is representable. -/
structure CacheRecord where
  count : Nat
  first_seen : Option Int
deriving DecidableEq, Repr

/-- Association-list lookup, the model of Python `d.get(k)` / `d[k]`. -/
def aget {α β : Type} [DecidableEq α] : List (α × β) → α → Option β
  | [], _ => none
  | (k, v) :: t, a => if k = a then some v else aget t a

/-- Association-list store, the model of Python `d[k] = v`; an existing
key keeps its position, a new key is appended (dict insertion order). -/
def aset {α β : Type} [DecidableEq α] : List (α × β) → α → β → List (α × β)
  | [], a, b => [(a, b)]
  | (k, v) :: t, a, b => if k = a then (a, b) :: t else (k, v) :: aset t a b

/-- Association-list delete, the model of Python `del d[k]` / `d.pop(k)`. -/
def aerase {α β : Type} [DecidableEq α] : List (α × β) → α → List (α × β)
  | [], _ => []
  | (k, v) :: t, a => if k = a then t else (k, v) :: aerase t a

/-- The model of Python `d.setdefault(k, dflt)`: returns the updated map
and the value now stored at `k`. -/
def asetdefault {α β : Type} [DecidableEq α] (l : List (α × β)) (a : α) (b : β) :
    List (α × β) × β :=
  match aget l a with
  | some v => (l, v)
  | none => (l ++ [(a, b)], b)

/-- Per-file bucket: message text → record (`cache_map[file_path]`). -/
abbrev Bucket := List (Msg × CacheRecord)

/-- The whole shared cache: file path → bucket (`CACHE_MAP`). -/
abbrev CacheTree := List (FPath × Bucket)

/-- The bucket currently stored for a file (empty if absent). -/
def bucketOf (cm : CacheTree) (f : FPath) : Bucket := (aget cm f).getD []

/- ## LineParser (`parser.py`, `parse_log_entry`) -/

/-- Shallow embedding of `parse_log_entry`.  `pd` is the external
`dateutil.parser.parse` oracle (`none` models its `ValueError`), `now`
is the value `datetime.now()` would return for the no-bracket branch.
Returns the `(timestamp, message)` pair of the source. -/
def parse_log_entry (pd : Chars → Option Int) (now : Int) (entry : Chars) :
    Option PyTime × Option Chars :=
  let e := trimL entry
  if e = [] then (none, none)
  else if e.head? = some '[' ∧ e.contains ']' = true then
    let i := e.findIdx (fun c => c = ']')
    let timestamp_str := (e.drop 1).take (i - 1)
    let message := trimL (e.drop (i + 1))
    match pd timestamp_str with
    | some t => (some (PyTime.dt t), some message)
    | none => (some (PyTime.raw timestamp_str), some message)
  else
    (some (PyTime.dt now), some e)

/- ## Sink (`files.py`, `dump_log_to_file`) -/

/-- `pathlib` final path component: everything after the last `/`. -/
def basename (p : FPath) : Chars := (p.reverse.takeWhile (fun c => c ≠ '/')).reverse

/-- The complementary prefix of `basename` (keeps any trailing `/`). -/
def dirname (p : FPath) : Chars := p.take (p.length - (basename p).length)

/-- Index of the last `.` in a name, Python `name.rfind(".")` (as an
`Option` instead of `-1`). -/
def lastDotPos (b : Chars) : Option Nat :=
  (b.reverse.findIdx? (fun c => c = '.')).map (fun k => b.length - 1 - k)

/-- `pathlib.PurePath.stem`: the final component minus its last suffix;
the suffix only counts when its dot is neither the first nor the last
character of the name. -/
def stem (p : FPath) : Chars :=
  match lastDotPos (basename p) with
  | some i =>
    if 0 < i ∧ i < (basename p).length - 1 then (basename p).take i
    else basename p
  | none => basename p

/-- The name built in `dump_log_to_file`: `f"{source_file.stem}-agg.log"`. -/
def aggDestName (src : FPath) : Chars := stem src ++ ("-agg.log").data

/-- The destination path `source_file.parent / f"{source_file.stem}-agg.log"`. -/
def aggDest (src : FPath) : FPath := dirname src ++ aggDestName src

/-- One appended output line, destination plus formatted text. -/
structure SinkWrite where
  dest : FPath
  line : Chars
deriving DecidableEq, Repr

/-- The text layout of `f.write(f"[{timestamp}] " + message + "\n")`. -/
def formatLine (ts m : Chars) : Chars := ('[' :: ts) ++ (']' :: ' ' :: m) ++ ['\x0a']

/-- `dump_log_to_file`: computes the sibling `-agg.log` destination and
the formatted line.  Write failures are swallowed (logged) in the
source, so the write itself always "succeeds" here. -/
def dump_log_to_file (source_file : FPath) (timestamp m : Chars) : SinkWrite :=
  ⟨aggDest source_file, formatLine timestamp m⟩

/-- Abstraction of the `strftime("%Y-%m-%d %H:%M:%S")` rendering of a
datetime instant. -/
def fmtTime (t : Int) : Chars := (toString t).data

/-- `timestamp.strftime(...)`: defined on datetimes; on the raw-string
fallback it raises `AttributeError` (`str` has no `strftime`). -/
def strftime : PyTime → Except PyExc Chars
  | PyTime.dt t => Except.ok (fmtTime t)
  | PyTime.raw _ => Except.error PyExc.attributeError

/- ## Event traces -/

/-- One atomic step of the embedded code, in program order: lock
acquire / release, bucket creation (`setdefault`), count increment,
record insertion, record deletion, Sink write. -/
inductive Evt
  | acq
  | rel
  | bucketInit (file : FPath)
  | incr (m : Msg)
  | insertRec (m : Msg)
  | eraseRec (m : Msg)
  | sink (w : SinkWrite)
deriving DecidableEq, Repr

/-- The Sink writes contained in a trace, in order. -/
def sinkWrites (evts : List Evt) : List SinkWrite :=
  evts.filterMap (fun e => match e with | Evt.sink w => some w | _ => none)

/-- Whether the cache lock is held just before the event at index `i`:
more acquisitions than releases among the first `i` events. -/
def heldAt (evts : List Evt) (i : Nat) : Bool :=
  (evts.take i).count Evt.acq > (evts.take i).count Evt.rel

/- ## process_log (`parser.py`) -/

/-- The in-line aggregation text of `process_log` (note the source's
spelling "occured"). -/
def aggLineOccured (m : Msg) (c : Nat) : Chars :=
  m ++ (" (occured " ++ toString c ++ " times)").data

/-- The aggregation text of `CachePruner.prune_once` ("occurred"). -/
def aggLineOccurred (m : Msg) (c : Nat) : Chars :=
  m ++ (" (occurred " ++ toString c ++ " times)").data

/-- Shallow embedding of `process_log`.  `current_time` is the
`datetime.now()` taken at the top of the function.  A missing record or
missing `first_seen` raises `KeyError` exactly where the source would
(`log_data["first_seen"]`, `cache[message]`). -/
def process_log (cache : Bucket) (source_file : FPath) (message : Msg)
    (agg_window current_time : Int) : Except PyExc (Bucket × List Evt) :=
  match aget cache message with
  | some log_data =>
    match log_data.first_seen with
    | some fs =>
      if current_time - fs ≥ agg_window then
        let evts :=
          if log_data.count ≥ 1 then
            [Evt.sink (dump_log_to_file source_file (fmtTime current_time)
                (aggLineOccured message log_data.count)),
             Evt.eraseRec message]
          else [Evt.eraseRec message]
        Except.ok (aerase cache message, evts)
      else
        Except.ok
          (aset cache message ⟨log_data.count + 1, log_data.first_seen⟩,
           [Evt.incr message])
    | none => Except.error PyExc.keyError
  | none => Except.error PyExc.keyError

/- ## Tailer line handling (`files.py`, `tail_file` body) -/

/-- The branch condition `if message in cache` of `tail_file`, i.e. the
Novel / Duplicate classification of one observation. -/
inductive Classify
  | Novel
  | Duplicate
deriving DecidableEq, Repr

/-- Classification of a message against the file's bucket. -/
def classify (cache : Bucket) (m : Msg) : Classify :=
  if (aget cache m).isSome then Classify.Duplicate else Classify.Novel

/-- Shallow embedding of the per-line body of `tail_file` after a line
parsed to a non-empty `message`: take the lock for
`cache_map.setdefault(file_path, {})`, release it, then either run
`process_log` (message present) or write immediately and insert a fresh
record (message absent).  `now` is the observation instant (both
`process_log`'s `datetime.now()` and the `first_seen` of a new record).
The trace records each step and the lock events around `setdefault`. -/
def observe_line (cache_map : CacheTree) (file_path : FPath)
    (timestamp : Option PyTime) (m : Msg) (now agg_window : Int) :
    Except PyExc (CacheTree × List Evt) :=
  let sd := asetdefault cache_map file_path []
  let locked := [Evt.acq, Evt.bucketInit file_path, Evt.rel]
  if (aget sd.2 m).isSome then
    match process_log sd.2 file_path m agg_window now with
    | Except.ok (cache2, evts) =>
      Except.ok (aset sd.1 file_path cache2, locked ++ evts)
    | Except.error e => Except.error e
  else
    match timestamp with
    | some ts =>
      match strftime ts with
      | Except.ok tstr =>
        Except.ok
          (aset sd.1 file_path (aset sd.2 m ⟨1, some now⟩),
           locked ++ [Evt.sink (dump_log_to_file file_path tstr m), Evt.insertRec m])
      | Except.error e => Except.error e
    | none => Except.error PyExc.attributeError

/-- One full line of `tail_file`: parse, skip falsy messages (`None` or
the empty string), otherwise observe. -/
def handle_line (pd : Chars → Option Int) (cache_map : CacheTree)
    (file_path : FPath) (line : Chars) (now agg_window : Int) :
    Except PyExc (CacheTree × List Evt) :=
  match parse_log_entry pd now line with
  | (_, none) => Except.ok (cache_map, [])
  | (timestamp, some m) =>
    if m = [] then Except.ok (cache_map, [])
    else observe_line cache_map file_path timestamp m now agg_window

/-- A sequence of observed lines against one file, each with its parsed
timestamp, message and observation instant, processed in order. -/
def observe_seq (cache_map : CacheTree) (file_path : FPath)
    (obs : List (Option PyTime × Msg × Int)) (agg_window : Int) :
    Except PyExc (CacheTree × List Evt) :=
  match obs with
  | [] => Except.ok (cache_map, [])
  | (ts, m, now) :: rest =>
    match observe_line cache_map file_path ts m now agg_window with
    | Except.ok (cm2, evts) =>
      match observe_seq cm2 file_path rest agg_window with
      | Except.ok (cm3, evts2) => Except.ok (cm3, evts ++ evts2)
      | Except.error e => Except.error e
    | Except.error e => Except.error e

/- ## Pruner (`prune.py`, `CachePruner.prune_once`) -/

/-- The qualification test of the scan: queued for removal when
`first_seen` is missing or `now - first_seen > dt_window` (strict). -/
def pruneQualifies (dt_window now : Int) (data : CacheRecord) : Bool :=
  match data.first_seen with
  | none => true
  | some fs => now - fs > dt_window

/-- The `to_remove` list built by the scan loops of `prune_once`. -/
def toRemove (cache : CacheTree) (dt_window now : Int) :
    List (FPath × Msg × CacheRecord) :=
  cache.foldl
    (fun acc pb =>
      acc ++ pb.2.filterMap
        (fun md =>
          if pruneQualifies dt_window now md.2 then some (pb.1, md.1, md.2)
          else none))
    []

/-- One iteration of the removal loop of `prune_once`:
`removed = self.cache[path].pop(msg, None)`, then report when the
popped record's count exceeds 1. -/
def pruneRemove (now : Int) (st : CacheTree × List Evt)
    (item : FPath × Msg × CacheRecord) : CacheTree × List Evt :=
  let bucket := bucketOf st.1 item.1
  match aget bucket item.2.1 with
  | none => st
  | some removed =>
    let c2 := aset st.1 item.1 (aerase bucket item.2.1)
    let evts := st.2 ++ [Evt.eraseRec item.2.1]
    if removed.count > 1 then
      (c2,
       evts ++ [Evt.sink (dump_log_to_file item.1 (fmtTime now)
         (aggLineOccurred item.2.1 removed.count))])
    else (c2, evts)

/-- Shallow embedding of `CachePruner.prune_once`: the scan and the
removal loop, Sink writes included, all run between the lock acquire
and release (`with self.lock:` spans both loops in the source). -/
def prune_once (cache : CacheTree) (dt_window now : Int) :
    CacheTree × List Evt :=
  let body := (toRemove cache dt_window now).foldl (pruneRemove now) (cache, [])
  (body.1, Evt.acq :: body.2 ++ [Evt.rel])

/- ## File discovery (`files.py`, `discover_files`) -/

/-- Python `needle in hay` on strings: contiguous-substring test. -/
def containsSub (needle hay : Chars) : Bool := decide (needle <:+: hay)

/-- Shallow embedding of `discover_files`.  `globM` is the external
`glob.glob` collaborator, `resolveP` the `Path.resolve()` step; a match
is kept when `"-agg" not in p.stem`. -/
def discover_files (globM : Chars → List FPath) (resolveP : FPath → FPath)
    (patterns : List Chars) : List FPath :=
  patterns.foldl
    (fun discovered pattern =>
      discovered ++
        ((globM pattern).map resolveP).filter
          (fun p => !containsSub ("-agg").data (stem p)))
    []

/-- A fixed datetime-parse oracle that fails on every input, modelling
`dateutil` on garbled text. -/
def pdNone : Chars → Option Int := fun _ => none

instance exceptDecEq {ε α : Type} [DecidableEq ε] [DecidableEq α] :
    DecidableEq (Except ε α) := fun x y =>
  match x, y with
  | Except.ok a, Except.ok b =>
    if h : a = b then isTrue (by rw [h])
    else isFalse (by intro hc; cases hc; exact h rfl)
  | Except.error a, Except.error b =>
    if h : a = b then isTrue (by rw [h])
    else isFalse (by intro hc; cases hc; exact h rfl)
  | Except.ok _, Except.error _ => isFalse (by intro hc; cases hc)
  | Except.error _, Except.ok _ => isFalse (by intro hc; cases hc)

instance stepResDecEq : DecidableEq (CacheTree × List Evt) := fun a b =>
  instDecidableEqProd a b

instance stepResxDecEq : DecidableEq (Except PyExc (CacheTree × List Evt)) := fun a b =>
  exceptDecEq a b

/- ## Association-list lemmas -/

theorem aget_aset_self {α β : Type} [DecidableEq α] (l : List (α × β)) (a : α) (b : β) :
    aget (aset l a b) a = some b := by
  induction l with
  | nil => simp [aset, aget]
  | cons kv t ih =>
    by_cases h : kv.1 = a
    · simp [aset, h, aget]
    · simp [aset, h, aget, ih]

theorem aget_aset_ne {α β : Type} [DecidableEq α] (l : List (α × β)) (a a2 : α) (b : β)
    (h : a2 ≠ a) : aget (aset l a b) a2 = aget l a2 := by
  have hne : a ≠ a2 := fun he => h he.symm
  induction l with
  | nil => simp [aset, aget, hne]
  | cons kv t ih =>
    by_cases hk : kv.1 = a
    · subst hk
      simp [aset, aget, hne]
    · simp [aset, hk, aget, ih]

theorem aget_eq_none {α β : Type} [DecidableEq α] (l : List (α × β)) (a : α)
    (h : a ∉ l.map Prod.fst) : aget l a = none := by
  induction l with
  | nil => rfl
  | cons kv t ih =>
    simp only [List.map_cons, List.mem_cons] at h
    push_neg at h
    have hne : kv.1 ≠ a := fun he => h.1 he.symm
    simp [aget, hne, ih h.2]

theorem aget_aerase_self {α β : Type} [DecidableEq α] (l : List (α × β)) (a : α)
    (h : (l.map Prod.fst).Nodup) : aget (aerase l a) a = none := by
  induction l with
  | nil => rfl
  | cons kv t ih =>
    simp only [List.map_cons, List.nodup_cons] at h
    by_cases hk : kv.1 = a
    · simp only [aerase, if_pos hk]
      exact aget_eq_none t a (hk ▸ h.1)
    · simp [aerase, hk, aget, ih h.2]

theorem asetdefault_snd {α β : Type} [DecidableEq α] (l : List (α × β)) (a : α) (b : β) :
    (asetdefault l a b).2 = (aget l a).getD b := by
  unfold asetdefault
  cases aget l a <;> simp

theorem aget_append {α β : Type} [DecidableEq α] (l1 l2 : List (α × β)) (a : α) :
    aget (l1 ++ l2) a = ((aget l1 a).orElse (fun _ => aget l2 a)) := by
  induction l1 with
  | nil => simp [aget]
  | cons kv t ih =>
    by_cases h : kv.1 = a <;> simp [aget, h, ih]

theorem aget_asetdefault_fst {α β : Type} [DecidableEq α] (l : List (α × β)) (a : α) (b : β) :
    aget (asetdefault l a b).1 a = some ((aget l a).getD b) := by
  unfold asetdefault
  cases h : aget l a with
  | some v => simp [h]
  | none => simp [aget_append, h, aget]

theorem bucketOf_aset (cm : CacheTree) (f : FPath) (b : Bucket) :
    bucketOf (aset cm f b) f = b := by
  simp [bucketOf, aget_aset_self]

theorem sinkWrites_append (l1 l2 : List Evt) :
    sinkWrites (l1 ++ l2) = sinkWrites l1 ++ sinkWrites l2 := by
  simp [sinkWrites]

/- ## Counterexamples and the timestamp-fallback bug -/

/-- C1: counterexample.  A record for message `m` with `first_seen = 0`
is still in the cache when the message is observed again at `now = 5`
with window `5`.  The observation is classified Duplicate, yet the code
does not increment the count by one: `process_log` sees
`now - first_seen ≥ window`, writes an aggregated line ("occured 1
times") and deletes the record, so the claim's "incrementing the
record's count by exactly one with no other change" is false for this
not-yet-evicted record. -/
theorem c1_counterexample :
    classify [(['m'], (⟨1, some 0⟩ : CacheRecord))] ['m'] = Classify.Duplicate ∧
    observe_line [(['f'], [(['m'], (⟨1, some 0⟩ : CacheRecord))])] ['f']
        (some (PyTime.dt 0)) ['m'] 5 5 =
      Except.ok ([(['f'], [])],
        [Evt.acq, Evt.bucketInit ['f'], Evt.rel,
         Evt.sink (dump_log_to_file ['f'] (fmtTime 5) (aggLineOccured ['m'] 1)),
         Evt.eraseRec ['m']]) := by decide

/-- C3: counterexample.  A record whose age equals the window exactly
(`first_seen = 0`, `now = 5`, window `5`) is NOT evicted by the
pruner's sweep: `prune_once` uses the strict test
`now - first_seen > dt_window`, so the cache is returned unchanged,
refuting "a record whose age equals the window exactly is evicted". -/
theorem c3_counterexample :
    prune_once [(['f'], [(['m'], (⟨2, some 0⟩ : CacheRecord))])] 5 5 =
      ([(['f'], [(['m'], (⟨2, some 0⟩ : CacheRecord))])], [Evt.acq, Evt.rel]) := by
  decide

/-- C4: counterexample.  An observation of a message already present in
the cache (classified Duplicate) DOES produce an immediate Sink write
by the Tailer when the record has outlived the window: `tail_file`
calls `process_log`, which writes the aggregated line at observation
time. -/
theorem c4_counterexample :
    classify [(['m'], (⟨3, some 0⟩ : CacheRecord))] ['m'] = Classify.Duplicate ∧
    (observe_line [(['f'], [(['m'], (⟨3, some 0⟩ : CacheRecord))])] ['f']
        (some (PyTime.dt 0)) ['m'] 7 5).map (fun r => sinkWrites r.2) =
      Except.ok [dump_log_to_file ['f'] (fmtTime 7) (aggLineOccured ['m'] 3)] := by
  decide

/-- C5: counterexample.  An evicted record with missing `first_seen`
and accumulated count 2 DOES get an output line: the scan queues it for
removal because `first_seen` is `None`, but the removal loop of
`prune_once` reports every popped record with `count > 1`, so an
aggregated line is written for the malformed record, refuting "no
output line is ever written for it, regardless of its accumulated
count". -/
theorem c5_counterexample :
    prune_once [(['f'], [(['m'], (⟨2, none⟩ : CacheRecord))])] 5 0 =
      ([(['f'], [])],
       [Evt.acq, Evt.eraseRec ['m'],
        Evt.sink (dump_log_to_file ['f'] (fmtTime 0) (aggLineOccurred ['m'] 2)),
        Evt.rel]) := by decide

/-- C6: counterexample.  The cache mutation that increments a record's
count happens after the lock has been released: in `tail_file` only
`cache_map.setdefault(file_path, {})` is inside `with cache_map_lock`,
and `process_log`'s `cache[message]["count"] += 1` runs outside it, so
"every cache mutation is serialized on the single shared lock" is
false.  The trace shows the increment at index 3, after the release at
index 2, with the lock not held there. -/
theorem c6_counterexample :
    observe_line [(['f'], [(['m'], (⟨1, some 0⟩ : CacheRecord))])] ['f']
        (some (PyTime.dt 0)) ['m'] 1 5 =
      Except.ok ([(['f'], [(['m'], (⟨2, some 0⟩ : CacheRecord))])],
        [Evt.acq, Evt.bucketInit ['f'], Evt.rel, Evt.incr ['m']]) ∧
    heldAt [Evt.acq, Evt.bucketInit ['f'], Evt.rel, Evt.incr ['m']] 3 = false := by
  decide

/-- C8: counterexample.  During the pruner's sweep a Sink write occurs
while the cache lock is held: in `prune_once` the whole removal loop,
`dump_log_to_file` calls included, is inside `with self.lock`.  The
trace of a sweep evicting a count-2 record has its sink write at index
2, strictly between the acquire and the release, with the lock held. -/
theorem c8_counterexample :
    (prune_once [(['f'], [(['m'], (⟨2, some 0⟩ : CacheRecord))])] 5 6).2 =
      [Evt.acq, Evt.eraseRec ['m'],
       Evt.sink (dump_log_to_file ['f'] (fmtTime 6) (aggLineOccurred ['m'] 2)),
       Evt.rel] ∧
    heldAt (prune_once [(['f'], [(['m'], (⟨2, some 0⟩ : CacheRecord))])] 5 6).2 2 =
      true := by decide

/-- C9: counterexample.  The input "[x]" is neither empty nor
whitespace-only, yet `parse_log_entry` yields an empty message: the
text after the closing bracket is empty, so the returned message is
the empty string (falsy downstream, treated as "no message"),
refuting "it yields no message if and only if the input is empty or
whitespace-only; every other input yields a non-empty message". -/
theorem c9_counterexample :
    parse_log_entry pdNone 0 ("[x]").data = (some (PyTime.raw ['x']), some []) ∧
    trimL ("[x]").data ≠ [] := by decide

/-- C7: the claim is right and the code is wrong.  For the line
`[garbled] hello`, `parse_log_entry` deliberately degrades: it catches
the `ValueError` of the datetime parse and returns the raw text
`"garbled"` as a fallback timestamp together with the message
`"hello"` (first conjunct).  But `tail_file` then unconditionally
calls `timestamp.strftime(...)` on the novel path; on the string
fallback this raises `AttributeError`, which escapes to `tail_file`'s
generic handler: the Tailer thread exits, the message is never written
and never enters the cache (second conjunct), contradicting both the
spec and `parse_log_entry`'s own non-fatal design. -/
theorem c7_code_bug :
    parse_log_entry pdNone 0 ("[garbled] hello").data =
      (some (PyTime.raw ("garbled").data), some ("hello").data) ∧
    handle_line pdNone [] ['f'] ("[garbled] hello").data 0 5 =
      Except.error PyExc.attributeError := by decide

/- ## Pruner eviction boundary (C3, C5) -/

theorem prune_once_single (f : FPath) (m : Msg) (r : CacheRecord) (w n : Int) :
    prune_once [(f, [(m, r)])] w n =
      if pruneQualifies w n r then
        ([(f, [])],
         Evt.acq :: ([Evt.eraseRec m] ++
           (if r.count > 1 then
              [Evt.sink (dump_log_to_file f (fmtTime n) (aggLineOccurred m r.count))]
            else [])) ++ [Evt.rel])
      else ([(f, [(m, r)])], [Evt.acq, Evt.rel]) := by
  by_cases hq : pruneQualifies w n r
  · by_cases hc : r.count > 1 <;>
      simp [prune_once, toRemove, pruneRemove, hq, hc, bucketOf, aget, aset, aerase]
  · simp [prune_once, toRemove, pruneRemove, hq]

/-- C3: amended claim, proved.  The pruner's sweep evicts a record iff
`now - first_seen > window` (strictly) or `first_seen` is missing; in
particular a record whose age is at most the window — including one
whose age equals the window exactly — survives the sweep. -/
theorem c3_amended (f : FPath) (m : Msg) (c : Nat) (fs w n : Int) :
    (prune_once [(f, [(m, ⟨c, some fs⟩)])] w n).1 =
      (if n - fs > w then [(f, [])] else [(f, [(m, ⟨c, some fs⟩)])]) ∧
    (prune_once [(f, [(m, ⟨c, none⟩)])] w n).1 = [(f, [])] := by
  constructor
  · rw [prune_once_single]
    by_cases h : n - fs > w <;> simp [pruneQualifies, h]
  · rw [prune_once_single]
    simp [pruneQualifies]

/-- C5: amended claim, proved.  An evicted record with missing
`first_seen` is removed from the cache, but whether output is written
for it depends on its count: count at most 1 produces no line, while
count greater than 1 produces the usual aggregated line. -/
theorem c5_amended (f : FPath) (m : Msg) (c : Nat) (w n : Int) :
    (prune_once [(f, [(m, ⟨c, none⟩)])] w n).1 = [(f, [])] ∧
    sinkWrites (prune_once [(f, [(m, ⟨c, none⟩)])] w n).2 =
      (if 1 < c then [dump_log_to_file f (fmtTime n) (aggLineOccurred m c)]
       else []) := by
  rw [prune_once_single]
  by_cases hc : 1 < c <;> simp [pruneQualifies, hc, sinkWrites]

/- ## Lock discipline of the sweep (C8) -/

theorem pruneRemove_evts_shape (n : Int) (st : CacheTree × List Evt)
    (it : FPath × Msg × CacheRecord) :
    ∃ tail : List Evt, (pruneRemove n st it).2 = st.2 ++ tail ∧
      ∀ e ∈ tail, e ≠ Evt.acq ∧ e ≠ Evt.rel := by
  unfold pruneRemove
  cases hA : aget (bucketOf st.1 it.1) it.2.1 with
  | none => exact ⟨[], by simp [hA], by simp⟩
  | some r =>
    by_cases h : r.count > 1
    · refine ⟨[Evt.eraseRec it.2.1,
        Evt.sink (dump_log_to_file it.1 (fmtTime n) (aggLineOccurred it.2.1 r.count))],
        by simp [hA, h], ?_⟩
      intro e he
      rcases List.mem_cons.mp he with h1 | h2
      · subst h1; exact ⟨by simp, by simp⟩
      · rcases List.mem_singleton.mp h2 with h3
        subst h3; exact ⟨by simp, by simp⟩
    · refine ⟨[Evt.eraseRec it.2.1], by simp [hA, h], ?_⟩
      intro e he
      rcases List.mem_singleton.mp he with h3
      subst h3; exact ⟨by simp, by simp⟩

theorem prune_body_no_lock (n : Int) (items : List (FPath × Msg × CacheRecord)) :
    ∀ st : CacheTree × List Evt, (∀ e ∈ st.2, e ≠ Evt.acq ∧ e ≠ Evt.rel) →
      ∀ e ∈ (items.foldl (pruneRemove n) st).2, e ≠ Evt.acq ∧ e ≠ Evt.rel := by
  induction items with
  | nil => intro st h; simpa using h
  | cons it rest ih =>
    intro st h
    simp only [List.foldl_cons]
    apply ih
    obtain ⟨tail, he, ht⟩ := pruneRemove_evts_shape n st it
    rw [he]
    intro e hm
    rcases List.mem_append.mp hm with h1 | h2
    · exact h e h1
    · exact ht e h2

theorem heldAt_sandwich (body : List Evt)
    (hb : ∀ e ∈ body, e ≠ Evt.acq ∧ e ≠ Evt.rel) (i : Nat) (s : SinkWrite)
    (hg : (Evt.acq :: body ++ [Evt.rel])[i]? = some (Evt.sink s)) :
    heldAt (Evt.acq :: body ++ [Evt.rel]) i = true := by
  match i with
  | 0 => simp at hg
  | j + 1 =>
    have hg2 : (body ++ [Evt.rel])[j]? = some (Evt.sink s) := by
      simpa using hg
    have hj : j < body.length := by
      by_contra hle
      push_neg at hle
      rcases Nat.lt_or_ge j (body.length + 1) with h1 | h2
      · have hje : j = body.length := by omega
        subst hje
        rw [List.getElem?_append_right (Nat.le_refl _)] at hg2
        simp at hg2
      · rw [List.getElem?_eq_none (by simp; omega)] at hg2
        exact Option.noConfusion hg2
    have hsub : ∀ e ∈ body.take j, e ≠ Evt.acq ∧ e ≠ Evt.rel :=
      fun e he => hb e (List.take_subset j body he)
    have hacq : Evt.acq ∉ body.take j := fun hmem => (hsub _ hmem).1 rfl
    have hrel : Evt.rel ∉ body.take j := fun hmem => (hsub _ hmem).2 rfl
    have htake : ((Evt.acq :: body) ++ [Evt.rel]).take (j + 1) =
        Evt.acq :: body.take j := by
      rw [List.take_append_eq_append_take]
      have hz : j + 1 - (Evt.acq :: body).length = 0 := by
        simp only [List.length_cons]
        omega
      rw [hz]
      simp [List.take_succ_cons]
    rw [heldAt, htake]
    simp [List.count_cons, List.count_eq_zero.mpr hacq, List.count_eq_zero.mpr hrel]

/-- C8: amended claim, proved.  During the pruner's sweep every Sink
write happens WHILE the cache lock is held: in `prune_once` the
`with self.lock` block spans both the scan and the removal loop, and
the removal loop performs the `dump_log_to_file` calls, so every sink
event of the sweep's trace sits strictly between the acquire and the
release. -/
theorem c8_amended (cache : CacheTree) (w n : Int) (i : Nat) (s : SinkWrite)
    (h : ((prune_once cache w n).2)[i]? = some (Evt.sink s)) :
    heldAt (prune_once cache w n).2 i = true := by
  have hb : ∀ e ∈ ((toRemove cache w n).foldl (pruneRemove n) (cache, [])).2,
      e ≠ Evt.acq ∧ e ≠ Evt.rel :=
    prune_body_no_lock n (toRemove cache w n) (cache, []) (by simp)
  unfold prune_once at h ⊢
  exact heldAt_sandwich _ hb i s h

theorem c8_amended_witness :
    heldAt (prune_once [(['g'], [(['a'], (⟨3, some 0⟩ : CacheRecord))])] 5 7).2 2 =
      true :=
  c8_amended [(['g'], [(['a'], (⟨3, some 0⟩ : CacheRecord))])] 5 7 2
    (dump_log_to_file ['g'] (fmtTime 7) (aggLineOccurred ['a'] 3)) (by decide)

/- ## Observation semantics (C1, C4) -/

theorem asetdefault_bucket (cm : CacheTree) (f : FPath) :
    (asetdefault cm f ([] : Bucket)).2 = bucketOf cm f := by
  rw [asetdefault_snd]; rfl

/-- C1: amended claim, proved.  For a line whose timestamp parsed to a
valid datetime: the first observation of a (file, message) pair is
classified Novel, inserts `{count: 1, first_seen: now}` and writes the
line immediately; every subsequent observation while the record's age
is strictly less than the window is classified Duplicate and
increments the count by exactly one with no other change (same
`first_seen`, no write, other records untouched).  An observation at
age ≥ window is NOT an increment (see the counterexample): the code
flushes and deletes the record instead. -/
theorem c1_amended (cm : CacheTree) (f : FPath) (m : Msg) (t now window : Int)
    (c : Nat) (fs : Int) :
    (aget (bucketOf cm f) m = none →
      classify (bucketOf cm f) m = Classify.Novel ∧
      ∃ cm2 evts,
        observe_line cm f (some (PyTime.dt t)) m now window = Except.ok (cm2, evts) ∧
        aget (bucketOf cm2 f) m = some ⟨1, some now⟩ ∧
        sinkWrites evts = [dump_log_to_file f (fmtTime t) m]) ∧
    (aget (bucketOf cm f) m = some ⟨c, some fs⟩ → now - fs < window →
      classify (bucketOf cm f) m = Classify.Duplicate ∧
      ∃ cm2 evts,
        observe_line cm f (some (PyTime.dt t)) m now window = Except.ok (cm2, evts) ∧
        aget (bucketOf cm2 f) m = some ⟨c + 1, some fs⟩ ∧
        sinkWrites evts = [] ∧
        ∀ m2, m2 ≠ m → aget (bucketOf cm2 f) m2 = aget (bucketOf cm f) m2) := by
  constructor
  · intro h
    refine ⟨by simp [classify, h],
      aset (asetdefault cm f []).1 f
        (aset (asetdefault cm f []).2 m ⟨1, some now⟩),
      [Evt.acq, Evt.bucketInit f, Evt.rel,
       Evt.sink (dump_log_to_file f (fmtTime t) m), Evt.insertRec m],
      ?_, ?_, ?_⟩
    · simp only [observe_line, asetdefault_bucket, h, Option.isSome_none,
        Bool.false_eq_true, if_false, strftime]
      rfl
    · rw [bucketOf_aset]
      exact aget_aset_self _ _ _
    · simp [sinkWrites]
  · intro h hlt
    have hnotge : ¬ now - fs ≥ window := not_le.mpr hlt
    refine ⟨by simp [classify, h],
      aset (asetdefault cm f []).1 f
        (aset (asetdefault cm f []).2 m ⟨c + 1, some fs⟩),
      [Evt.acq, Evt.bucketInit f, Evt.rel, Evt.incr m], ?_, ?_, ?_, ?_⟩
    · simp only [observe_line, asetdefault_bucket, h, Option.isSome_some, if_true,
        process_log, hnotge, if_false]
      rfl
    · rw [bucketOf_aset]
      exact aget_aset_self _ _ _
    · simp [sinkWrites]
    · intro m2 hm2
      rw [bucketOf_aset, asetdefault_bucket, aget_aset_ne _ _ _ _ hm2]

theorem c1_amended_witness :
    (classify (bucketOf [] ['f']) ['m'] = Classify.Novel ∧
     ∃ cm2 evts,
       observe_line [] ['f'] (some (PyTime.dt 3)) ['m'] 10 5 = Except.ok (cm2, evts) ∧
       aget (bucketOf cm2 ['f']) ['m'] = some ⟨1, some 10⟩ ∧
       sinkWrites evts = [dump_log_to_file ['f'] (fmtTime 3) ['m']]) ∧
    (classify (bucketOf [(['f'], [(['m'], (⟨1, some 0⟩ : CacheRecord))])] ['f']) ['m'] =
        Classify.Duplicate ∧
     ∃ cm2 evts,
       observe_line [(['f'], [(['m'], (⟨1, some 0⟩ : CacheRecord))])] ['f']
           (some (PyTime.dt 3)) ['m'] 1 5 = Except.ok (cm2, evts) ∧
       aget (bucketOf cm2 ['f']) ['m'] = some ⟨2, some 0⟩ ∧
       sinkWrites evts = [] ∧
       ∀ m2, m2 ≠ ['m'] →
         aget (bucketOf cm2 ['f']) m2 =
           aget (bucketOf [(['f'], [(['m'], (⟨1, some 0⟩ : CacheRecord))])] ['f']) m2) :=
  ⟨(c1_amended [] ['f'] ['m'] 3 10 5 0 0).1 (by decide),
   (c1_amended [(['f'], [(['m'], (⟨1, some 0⟩ : CacheRecord))])] ['f'] ['m'] 3 1 5 1 0).2
     (by decide) (by decide)⟩

/-- C4: amended claim, proved.  A Duplicate observation causes no
immediate Sink write exactly while the record is inside the window
(`now - first_seen < window`); once `now - first_seen ≥ window` the
Tailer itself (via `process_log`) writes one aggregated line at
observation time and removes the record, so reporting is NOT reserved
to the Pruner's sweep. -/
theorem c4_amended (cm : CacheTree) (f : FPath) (m : Msg) (t now window : Int)
    (c : Nat) (fs : Int)
    (hrec : aget (bucketOf cm f) m = some ⟨c, some fs⟩) :
    (now - fs < window →
      ∃ cm2 evts,
        observe_line cm f (some (PyTime.dt t)) m now window = Except.ok (cm2, evts) ∧
        sinkWrites evts = []) ∧
    (now - fs ≥ window → 1 ≤ c → ((bucketOf cm f).map Prod.fst).Nodup →
      ∃ cm2 evts,
        observe_line cm f (some (PyTime.dt t)) m now window = Except.ok (cm2, evts) ∧
        sinkWrites evts = [dump_log_to_file f (fmtTime now) (aggLineOccured m c)] ∧
        aget (bucketOf cm2 f) m = none) := by
  constructor
  · intro hlt
    have hnotge : ¬ now - fs ≥ window := not_le.mpr hlt
    refine ⟨aset (asetdefault cm f []).1 f
        (aset (asetdefault cm f []).2 m ⟨c + 1, some fs⟩),
      [Evt.acq, Evt.bucketInit f, Evt.rel, Evt.incr m], ?_, ?_⟩
    · simp only [observe_line, asetdefault_bucket, hrec, Option.isSome_some, if_true,
        process_log, hnotge, if_false]
      rfl
    · simp [sinkWrites]
  · intro hge hc hnd
    refine ⟨aset (asetdefault cm f []).1 f (aerase (asetdefault cm f []).2 m),
      [Evt.acq, Evt.bucketInit f, Evt.rel,
       Evt.sink (dump_log_to_file f (fmtTime now) (aggLineOccured m c)),
       Evt.eraseRec m], ?_, ?_, ?_⟩
    · simp only [observe_line, asetdefault_bucket, hrec, Option.isSome_some, if_true,
        process_log, hge, if_true, hc]
      rfl
    · simp [sinkWrites]
    · rw [bucketOf_aset, asetdefault_bucket]
      exact aget_aerase_self _ _ hnd

theorem c4_amended_witness :
    (∃ cm2 evts,
      observe_line [(['f'], [(['m'], (⟨2, some 0⟩ : CacheRecord))])] ['f']
          (some (PyTime.dt 3)) ['m'] 4 5 = Except.ok (cm2, evts) ∧
      sinkWrites evts = []) ∧
    (∃ cm2 evts,
      observe_line [(['f'], [(['m'], (⟨2, some 0⟩ : CacheRecord))])] ['f']
          (some (PyTime.dt 3)) ['m'] 9 5 = Except.ok (cm2, evts) ∧
      sinkWrites evts =
        [dump_log_to_file ['f'] (fmtTime 9) (aggLineOccured ['m'] 2)] ∧
      aget (bucketOf cm2 ['f']) ['m'] = none) :=
  ⟨(c4_amended [(['f'], [(['m'], (⟨2, some 0⟩ : CacheRecord))])] ['f'] ['m'] 3 4 5 2 0
      (by decide)).1 (by decide),
   (c4_amended [(['f'], [(['m'], (⟨2, some 0⟩ : CacheRecord))])] ['f'] ['m'] 3 9 5 2 0
      (by decide)).2 (by decide) (by decide) (by decide)⟩

/- ## Repeated observation runs (C2, C6) -/

theorem observe_first (f : FPath) (m : Msg) (t0 window : Int) :
    observe_line [] f (some (PyTime.dt t0)) m t0 window =
      Except.ok ([(f, [(m, ⟨1, some t0⟩)])],
        [Evt.acq, Evt.bucketInit f, Evt.rel,
         Evt.sink (dump_log_to_file f (fmtTime t0) m), Evt.insertRec m]) := by
  simp [observe_line, asetdefault, aget, aset, strftime]

theorem observe_dup_step (f : FPath) (m : Msg) (t0 window t : Int) (c : Nat)
    (hlt : t - t0 < window) :
    observe_line [(f, [(m, ⟨c, some t0⟩)])] f (some (PyTime.dt t0)) m t window =
      Except.ok ([(f, [(m, ⟨c + 1, some t0⟩)])],
        [Evt.acq, Evt.bucketInit f, Evt.rel, Evt.incr m]) := by
  have hnotge : ¬ t - t0 ≥ window := not_le.mpr hlt
  simp [observe_line, asetdefault, aget, process_log, hnotge, aset]

theorem observe_seq_dups (f : FPath) (m : Msg) (t0 window : Int) (c : Nat)
    (ts : List Int) (hin : ∀ t ∈ ts, t - t0 < window) :
    ∃ evts,
      observe_seq [(f, [(m, ⟨c, some t0⟩)])] f
          (ts.map (fun t => (some (PyTime.dt t0), m, t))) window =
        Except.ok ([(f, [(m, ⟨c + ts.length, some t0⟩)])], evts) ∧
      sinkWrites evts = [] := by
  induction ts generalizing c with
  | nil => exact ⟨[], by simp [observe_seq], by simp [sinkWrites]⟩
  | cons t rest ih =>
    have hlt : t - t0 < window := hin t (List.mem_cons_self t rest)
    obtain ⟨evts2, he2, hs2⟩ := ih (c + 1) (fun x hx => hin x (List.mem_cons_of_mem _ hx))
    refine ⟨[Evt.acq, Evt.bucketInit f, Evt.rel, Evt.incr m] ++ evts2, ?_, ?_⟩
    · have hlen : c + 1 + rest.length = c + (rest.length + 1) := by omega
      simp only [List.map_cons, observe_seq, observe_dup_step f m t0 window t c hlt, he2,
        hlen, List.length_cons]
    · rw [sinkWrites_append, hs2]
      simp [sinkWrites]

/-- C2: confirmed.  If a message is observed exactly `k` times inside
one open window (`k = 1 + ts.length`, first at `t0`, the repeats all
strictly inside the window), then: the only write during the
observations is the immediate Novel line; after the run the record
holds count `k`; a sweep at any time while the record's age is within
the window writes nothing; and the sweep after window expiry evicts
the record and writes exactly one aggregated line stating
"occurred k times" when `k > 1` and no line when `k = 1`. -/
theorem c2 (f : FPath) (m : Msg) (t0 window bigT : Int) (ts : List Int)
    (hin : ∀ t ∈ ts, t - t0 < window) (hT : bigT - t0 > window) :
    ∃ cm2 evts,
      observe_seq [] f
          ((some (PyTime.dt t0), m, t0) ::
            ts.map (fun t => (some (PyTime.dt t0), m, t))) window =
        Except.ok (cm2, evts) ∧
      sinkWrites evts = [dump_log_to_file f (fmtTime t0) m] ∧
      aget (bucketOf cm2 f) m = some ⟨1 + ts.length, some t0⟩ ∧
      sinkWrites (prune_once cm2 window bigT).2 =
        (if 1 < 1 + ts.length then
          [dump_log_to_file f (fmtTime bigT) (aggLineOccurred m (1 + ts.length))]
         else []) ∧
      bucketOf (prune_once cm2 window bigT).1 f = [] ∧
      (∀ t2 : Int, ¬ t2 - t0 > window →
        sinkWrites (prune_once cm2 window t2).2 = []) := by
  obtain ⟨evts2, he2, hs2⟩ := observe_seq_dups f m t0 window 1 ts hin
  refine ⟨[(f, [(m, ⟨1 + ts.length, some t0⟩)])],
    [Evt.acq, Evt.bucketInit f, Evt.rel,
     Evt.sink (dump_log_to_file f (fmtTime t0) m), Evt.insertRec m] ++ evts2,
    ?_, ?_, ?_, ?_, ?_, ?_⟩
  · simp only [observe_seq, observe_first, he2]
  · rw [sinkWrites_append, hs2]
    simp [sinkWrites]
  · simp [bucketOf, aget, aget_aset_self]
  · rw [prune_once_single]
    have hq : pruneQualifies window bigT ⟨1 + ts.length, some t0⟩ = true := by
      simp [pruneQualifies, hT]
    rw [if_pos hq]
    by_cases hk : 1 < 1 + ts.length <;> simp [hk, sinkWrites]
  · rw [prune_once_single]
    have hq : pruneQualifies window bigT ⟨1 + ts.length, some t0⟩ = true := by
      simp [pruneQualifies, hT]
    rw [if_pos hq]
    simp [bucketOf, aget]
  · intro t2 ht2
    rw [prune_once_single]
    have hq : pruneQualifies window t2 ⟨1 + ts.length, some t0⟩ = false := by
      simp [pruneQualifies, ht2]
    rw [if_neg (by simp [hq])]
    simp [sinkWrites]

theorem c2_witness :
    ∃ cm2 evts,
      observe_seq [] ['f']
          ((some (PyTime.dt 0), ['m'], (0 : Int)) ::
            [(1 : Int), 2].map (fun t => (some (PyTime.dt 0), ['m'], t))) 5 =
        Except.ok (cm2, evts) ∧
      sinkWrites evts = [dump_log_to_file ['f'] (fmtTime 0) ['m']] ∧
      aget (bucketOf cm2 ['f']) ['m'] = some ⟨1 + [(1 : Int), 2].length, some 0⟩ ∧
      sinkWrites (prune_once cm2 5 6).2 =
        (if 1 < 1 + [(1 : Int), 2].length then
          [dump_log_to_file ['f'] (fmtTime 6)
            (aggLineOccurred ['m'] (1 + [(1 : Int), 2].length))]
         else []) ∧
      bucketOf (prune_once cm2 5 6).1 ['f'] = [] ∧
      (∀ t2 : Int, ¬ t2 - 0 > 5 → sinkWrites (prune_once cm2 5 t2).2 = []) :=
  c2 ['f'] ['m'] 0 5 6 [1, 2] (by decide) (by decide)

/-- C6: amended claim, proved.  Sequential (uninterleaved) observation
of the same (file, message) key N times inside an open window does
leave the record with count exactly N; but the "because" of the claim
is false: the shared lock guards only the `setdefault` bucket lookup —
the count increment itself runs after the lock is released (trace
index 3, after the release at index 2), so cache mutations are NOT
serialized on the lock (see the counterexample). -/
theorem c6_amended (f : FPath) (m : Msg) (t0 window : Int) (ts : List Int)
    (hin : ∀ t ∈ ts, t - t0 < window) :
    (∃ evts,
      observe_seq [] f
          ((some (PyTime.dt t0), m, t0) ::
            ts.map (fun t => (some (PyTime.dt t0), m, t))) window =
        Except.ok ([(f, [(m, ⟨1 + ts.length, some t0⟩)])], evts)) ∧
    (∀ (cm : CacheTree) (c : Nat) (fs now : Int),
      aget (bucketOf cm f) m = some ⟨c, some fs⟩ → now - fs < window →
      ∃ cm2,
        observe_line cm f (some (PyTime.dt t0)) m now window =
          Except.ok (cm2, [Evt.acq, Evt.bucketInit f, Evt.rel, Evt.incr m]) ∧
        heldAt [Evt.acq, Evt.bucketInit f, Evt.rel, Evt.incr m] 3 = false) := by
  constructor
  · obtain ⟨evts2, he2, _⟩ := observe_seq_dups f m t0 window 1 ts hin
    refine ⟨[Evt.acq, Evt.bucketInit f, Evt.rel,
      Evt.sink (dump_log_to_file f (fmtTime t0) m), Evt.insertRec m] ++ evts2, ?_⟩
    simp only [observe_seq, observe_first, he2]
  · intro cm c fs now h hlt
    have hnotge : ¬ now - fs ≥ window := not_le.mpr hlt
    refine ⟨aset (asetdefault cm f []).1 f
        (aset (asetdefault cm f []).2 m ⟨c + 1, some fs⟩), ?_, rfl⟩
    simp only [observe_line, asetdefault_bucket, h, Option.isSome_some, if_true,
      process_log, hnotge, if_false]
    rfl

theorem c6_amended_witness :
    (∃ evts,
      observe_seq [] ['f']
          ((some (PyTime.dt 0), ['m'], (0 : Int)) ::
            [(1 : Int)].map (fun t => (some (PyTime.dt 0), ['m'], t))) 5 =
        Except.ok ([(['f'], [(['m'], ⟨1 + [(1 : Int)].length, some 0⟩)])], evts)) ∧
    (∃ cm2,
      observe_line [(['f'], [(['m'], (⟨1, some 0⟩ : CacheRecord))])] ['f']
          (some (PyTime.dt 0)) ['m'] 1 5 =
        Except.ok (cm2, [Evt.acq, Evt.bucketInit ['f'], Evt.rel, Evt.incr ['m']]) ∧
      heldAt [Evt.acq, Evt.bucketInit ['f'], Evt.rel, Evt.incr ['m']] 3 = false) :=
  ⟨(c6_amended ['f'] ['m'] 0 5 [1] (by decide)).1,
   (c6_amended ['f'] ['m'] 0 5 [1] (by decide)).2
     [(['f'], [(['m'], (⟨1, some 0⟩ : CacheRecord))])] 1 0 1 (by decide) (by decide)⟩

/- ## Parser totality (C9) -/

/-- C9: amended claim, proved.  `parse_log_entry` is a total function
(its only caught failure, the datetime parse, is modelled by the `pd`
oracle): the message slot is `none` exactly when the input trims to
empty, and every non-empty input that does NOT take the bracket branch
yields the non-empty trimmed line as its message.  The bracket branch,
however, can yield an empty message from a non-empty input (see the
counterexample), so "every other input yields a non-empty message" is
true only outside the bracket branch. -/
theorem c9_amended (pd : Chars → Option Int) (now : Int) (s : Chars) :
    ((parse_log_entry pd now s).2 = none ↔ trimL s = []) ∧
    (trimL s ≠ [] →
      ¬((trimL s).head? = some '[' ∧ (trimL s).contains ']' = true) →
      (parse_log_entry pd now s).2 = some (trimL s) ∧ trimL s ≠ []) := by
  by_cases h : trimL s = []
  · constructor
    · simp [parse_log_entry, h]
    · intro hne
      exact absurd h hne
  · constructor
    · simp only [parse_log_entry, if_neg h]
      by_cases hb : (trimL s).head? = some '[' ∧ (trimL s).contains ']' = true
      · rw [if_pos hb]
        cases pd (((trimL s).drop 1).take ((trimL s).findIdx (fun c => c = ']') - 1)) <;>
          simp [h]
      · rw [if_neg hb]
        simp [h]
    · intro hne hb
      have hb2 : ¬((trimL s).head? = some '[' ∧ ']' ∈ trimL s) := by simpa using hb
      simp [parse_log_entry, h, hb2]

theorem c9_amended_witness :
    ((parse_log_entry pdNone 0 ("  hello  ").data).2 = none ↔
      trimL ("  hello  ").data = []) ∧
    ((parse_log_entry pdNone 0 ("  hello  ").data).2 =
        some (trimL ("  hello  ").data) ∧
      trimL ("  hello  ").data ≠ []) :=
  ⟨(c9_amended pdNone 0 ("  hello  ").data).1,
   (c9_amended pdNone 0 ("  hello  ").data).2 (by decide) (by decide)⟩

/- ## File discovery never selects aggregation outputs (C10) -/

theorem dropWhile_head_not {α : Type} (q : α → Bool) (l : List α) (c : α) (t : List α)
    (h : List.dropWhile q l = c :: t) : q c = false := by
  induction l with
  | nil => simp at h
  | cons a l2 ih =>
    by_cases hq : q a
    · rw [List.dropWhile_cons_of_pos hq] at h
      exact ih h
    · rw [List.dropWhile_cons_of_neg hq] at h
      cases h
      simpa using hq

theorem mem_basename_ne (p : FPath) (c : Char) (hc : c ∈ basename p) : ¬ c = '/' := by
  rw [basename, List.mem_reverse] at hc
  simpa using List.mem_takeWhile_imp hc

theorem stem_no_slash (p : FPath) (c : Char) (hc : c ∈ stem p) : ¬ c = '/' := by
  apply mem_basename_ne p
  unfold stem at hc
  split at hc
  · split at hc
    · exact List.take_subset _ _ hc
    · exact hc
  · exact hc

theorem basename_suffix (p : FPath) : basename p <:+ p := by
  rw [basename]
  have hpre : ((basename p).reverse) <+: p.reverse := by
    rw [basename, List.reverse_reverse]
    exact List.takeWhile_prefix _
  exact List.reverse_prefix.mp (by simpa [basename] using hpre)

theorem dirname_eq (p : FPath) : ∃ t, p = t ++ basename p ∧ dirname p = t := by
  obtain ⟨t, ht⟩ := basename_suffix p
  refine ⟨t, ht.symm, ?_⟩
  have hlb := congrArg List.length ht
  rw [List.length_append] at hlb
  have hlen : p.length - (basename p).length = t.length := by omega
  rw [dirname, hlen, ← ht]
  exact List.take_left t (basename p)

theorem dirname_form (p : FPath) : dirname p = [] ∨ ∃ A, dirname p = A ++ ['/'] := by
  obtain ⟨t, hp, hd⟩ := dirname_eq p
  have h1 : p.reverse = (basename p).reverse ++ t.reverse := by
    conv_lhs => rw [hp]
    rw [List.reverse_append]
  have h2 : (basename p).reverse =
      List.takeWhile (fun c => decide (c ≠ '/')) p.reverse := by
    rw [basename, List.reverse_reverse]
  have h4 : List.takeWhile (fun c => decide (c ≠ '/')) p.reverse ++
      List.dropWhile (fun c => decide (c ≠ '/')) p.reverse =
      List.takeWhile (fun c => decide (c ≠ '/')) p.reverse ++ t.reverse := by
    rw [List.takeWhile_append_dropWhile]
    conv_lhs => rw [h1]
    rw [h2]
  have ht : t.reverse = List.dropWhile (fun c => decide (c ≠ '/')) p.reverse :=
    (List.append_cancel_left h4).symm
  cases htr : t.reverse with
  | nil =>
    left
    rw [hd]
    have : t = [] := by
      have := congrArg List.reverse htr
      simpa using this
    exact this
  | cons c r =>
    right
    have hq : (fun c => decide (c ≠ '/')) c = false :=
      dropWhile_head_not _ _ c r (ht.symm.trans htr)
    have hslash : c = '/' := by simpa using hq
    refine ⟨r.reverse, ?_⟩
    rw [hd]
    have := congrArg List.reverse htr
    simpa [hslash] using this

theorem basename_append (A n : Chars) (hn : ∀ c ∈ n, ¬ c = '/')
    (hA : A = [] ∨ ∃ A2, A = A2 ++ ['/']) : basename (A ++ n) = n := by
  rw [basename, List.reverse_append]
  have hall : ∀ c ∈ n.reverse, (fun c => decide (c ≠ '/')) c = true := by
    intro c hc
    simpa using hn c (List.mem_reverse.mp hc)
  rw [List.takeWhile_append_of_pos hall]
  rcases hA with h0 | ⟨A2, h2⟩
  · subst h0; simp
  · subst h2
    have hra : (A2 ++ ['/']).reverse = '/' :: A2.reverse := by simp
    rw [hra]
    have htw : List.takeWhile (fun c => decide (c ≠ '/')) ('/' :: A2.reverse) = [] := by
      rw [List.takeWhile_cons]
      simp
    rw [htw]
    simp

theorem lastDotPos_agg (Y : Chars) :
    lastDotPos (Y ++ ("-agg.log").data) = some (Y.length + 4) := by
  rw [lastDotPos, List.reverse_append]
  have hrev : (("-agg.log").data).reverse = ['g', 'o', 'l', '.', 'g', 'g', 'a', '-'] := by
    decide
  rw [hrev]
  have hfi : List.findIdx? (fun c => c = '.')
      ((['g', 'o', 'l', '.', 'g', 'g', 'a', '-'] : Chars) ++ Y.reverse) = some 3 := by
    simp [List.findIdx?_cons]
  rw [hfi]
  have h8 : (("-agg.log").data).length = 8 := by decide
  have hlen : (Y ++ ("-agg.log").data).length = Y.length + 8 := by
    rw [List.length_append, h8]
  rw [hlen]
  simp only [Option.map_some']
  have harith : Y.length + 8 - 1 - 3 = Y.length + 4 := by omega
  rw [harith]

theorem stem_of_basename_agg (p : FPath) (Y : Chars)
    (hb : basename p = Y ++ ("-agg.log").data) :
    stem p = Y ++ ("-agg").data := by
  unfold stem
  rw [hb, lastDotPos_agg]
  dsimp only
  have h8 : (("-agg.log").data).length = 8 := by decide
  have hcond : 0 < Y.length + 4 ∧ Y.length + 4 < (Y ++ ("-agg.log").data).length - 1 := by
    constructor
    · omega
    · rw [List.length_append, h8]
      omega
  rw [if_pos hcond, List.take_append_eq_append_take,
    List.take_of_length_le (by omega), Nat.add_sub_cancel_left]
  congr 1

theorem stem_aggDest (src : FPath) : stem (aggDest src) = stem src ++ ("-agg").data := by
  apply stem_of_basename_agg
  rw [aggDest, aggDestName]
  apply basename_append
  · intro c hc
    rcases List.mem_append.mp hc with h1 | h2
    · exact stem_no_slash src c h1
    · have hconc : ∀ x ∈ ("-agg.log").data, ¬ x = '/' := by decide
      exact hconc c h2
  · exact dirname_form src

theorem discover_no_agg_aux (globM : Chars → List FPath) (resolveP : FPath → FPath)
    (pats : List Chars) (acc : List FPath)
    (hacc : ∀ p ∈ acc, containsSub ("-agg").data (stem p) = false) :
    ∀ p ∈ pats.foldl
        (fun discovered pattern =>
          discovered ++
            ((globM pattern).map resolveP).filter
              (fun p => !containsSub ("-agg").data (stem p)))
        acc,
      containsSub ("-agg").data (stem p) = false := by
  induction pats generalizing acc with
  | nil => simpa using hacc
  | cons pat rest ih =>
    simp only [List.foldl_cons]
    apply ih
    intro p hp
    rcases List.mem_append.mp hp with h1 | h2
    · exact hacc p h1
    · simpa using (List.mem_filter.mp h2).2

/-- C10: confirmed.  `discover_files` never returns a path whose stem
contains "-agg" (it filters on `"-agg" not in p.stem` over the
resolved matches of every pattern), while the Sink destination of any
monitored source is its sibling `<stem>-agg.log`, whose stem
`<stem>-agg` always contains "-agg" — so the tool's own aggregation
output files can never be picked up as monitored sources. -/
theorem c10 (globM : Chars → List FPath) (resolveP : FPath → FPath)
    (patterns : List Chars) :
    (∀ p ∈ discover_files globM resolveP patterns,
      containsSub ("-agg").data (stem p) = false) ∧
    (∀ src : FPath, containsSub ("-agg").data (stem (aggDest src)) = true) := by
  constructor
  · exact discover_no_agg_aux globM resolveP patterns [] (by simp)
  · intro src
    rw [stem_aggDest]
    have hinf : ("-agg").data <:+: stem src ++ ("-agg").data :=
      (List.suffix_append (stem src) (("-agg").data)).isInfix
    rw [containsSub]
    exact decide_eq_true hinf

theorem c10_witness :
    containsSub ("-agg").data (stem (("a.log").data)) = false ∧
    containsSub ("-agg").data (stem (aggDest (("a.log").data))) = true :=
  ⟨(c10 (fun _ => [("a.log").data]) id [['*']]).1 (("a.log").data) (by decide),
   (c10 (fun _ => [("a.log").data]) id [['*']]).2 (("a.log").data)⟩

end GLT
